import Mathlib

/-!
# Verification of the Manatan OCR server core

A shallow embedding, in Lean 4, of the cache-key normalizer, the persistent
cache store, the chapter status resolver, the retry policy and the geometry
pipeline of `crates/ocr-server` (files `logic.rs`, `state.rs`, `handlers.rs`),
together with theorems settling the specification's claims about them.

Modelling conventions:
* Rust strings are Lean `String`s; the URL machinery works on `List Char`.
* The WHATWG URL parser used by the code (`reqwest::Url`) is modelled by
  `parseUrlCs` for absolute URLs of the shapes the server handles
  (hierarchical `scheme://host[:port]/path?query#fragment` URLs and
  opaque-path `scheme:rest` URLs of non-special schemes).
* The SQLite tables are association lists; SQLite `LIKE` (ASCII
  case-insensitive, with `%`/`_` wildcards) is modelled by `likeMatch`.
* `f64`/`f32` arithmetic is modelled exactly: over `ℚ` where only field
  operations occur, over `ℝ` where `cos`/`sin` occur.
* Fallible storage access is modelled by `StorageEnv`: whether a pooled
  connection can be acquired and which statement executions succeed.
-/

namespace Manatan

/-! ## Character-list helpers (Rust `str` operations) -/

/-- Split at the first occurrence of `sep`: `some (before, after)` when `sep`
occurs, `none` otherwise.  Models locating the `:` after a URL scheme and the
`#` before a fragment. -/
def splitFirst (sep : Char) : List Char → Option (List Char × List Char)
  | [] => none
  | c :: rest =>
    if c = sep then some ([], rest)
    else (splitFirst sep rest).map (fun p => (c :: p.1, p.2))

/-- Split on every occurrence of `sep`, keeping empty parts: the behaviour of
Rust's `str::split(sep)`, which yields `n + 1` parts for `n` separators. -/
def splitSep (sep : Char) : List Char → List (List Char)
  | [] => [[]]
  | c :: rest =>
    if c = sep then [] :: splitSep sep rest
    else
      match splitSep sep rest with
      | [] => [[c]]
      | p :: ps => (c :: p) :: ps

/-- Join with a separator: Rust's `Vec::join(sep)`. -/
def joinSep (sep : Char) : List (List Char) → List Char
  | [] => []
  | [p] => p
  | p :: ps => p ++ sep :: joinSep sep ps

/-! ## Language tags -/

/-- Modelled from the spec: the `OcrLanguage` enum lives in
`crates/ocr-server/src/language.rs`, which is not among the staged sources.
Per the spec it is a small closed enum of language tags; the cache-key claims
depend only on the string code `as_str` produces, so the model carries that
string.  -/
structure OcrLanguage where
  as_str : String
deriving DecidableEq

/-- Modelled from the spec: `OcrLanguage::default()` (`unwrap_or_default` in
the handlers); the spec does not name the default tag, and no claim depends
on which language it is. -/
def langDefault : OcrLanguage := ⟨"ja"⟩

/-! ## URL model

`reqwest::Url::parse` (the WHATWG URL parser).  The model covers absolute
URLs: hierarchical ones (`scheme://host[:port]path?query#fragment`) and
opaque-path ones of non-special schemes (`mailto:user@host`).  Scheme and
host are lowercased, a default port is dropped, and strings without a valid
`scheme:` head fail to parse, as in the crate. -/

/-- A parsed absolute URL.  `hasAuthority` is false for opaque-path
(cannot-be-a-base) URLs such as `mailto:`. -/
structure Url where
  scheme : List Char
  hasAuthority : Bool
  host : List Char
  port : Option Nat
  path : List Char
  query : Option (List Char)
  fragment : Option (List Char)
deriving DecidableEq

/-- The WHATWG special schemes. -/
def isSpecial (s : List Char) : Bool :=
  s = "http".data ∨ s = "https".data ∨ s = "ws".data ∨ s = "wss".data ∨
    s = "ftp".data ∨ s = "file".data

/-- Default port of a special scheme. -/
def defaultPort (s : List Char) : Option Nat :=
  if s = "http".data ∨ s = "ws".data then some 80
  else if s = "https".data ∨ s = "wss".data then some 443
  else if s = "ftp".data then some 21
  else none

/-- The parser stores no port when it equals the scheme's default. -/
def normalizePort (scheme : List Char) (p : Option Nat) : Option Nat :=
  if p = defaultPort scheme then none else p

def schemeCharOk (c : Char) : Bool :=
  c.isAlpha ∨ c.isDigit ∨ c = '+' ∨ c = '-' ∨ c = '.'

def natOfDigits (ds : List Char) : Nat :=
  ds.foldl (fun n c => 10 * n + (c.toNat - '0'.toNat)) 0

/-- Split an authority (no `/` or `?` inside) into host and optional port. -/
def parseAuthority (cs : List Char) : Option (List Char × Option Nat) :=
  match splitFirst ':' cs with
  | none => some (cs, none)
  | some (h, p) =>
    if p = [] then some (h, none)
    else if p.all Char.isDigit then some (h, some (natOfDigits p)) else none

/-- Parse a hierarchical body (what follows `scheme://`): authority, then
path, then `?query`. -/
def parseHier (scheme afterSlashes : List Char) (fragment : Option (List Char)) : Option Url :=
  let authority := afterSlashes.takeWhile (fun c => ¬ (c = '/' ∨ c = '?'))
  let tail0 := afterSlashes.dropWhile (fun c => ¬ (c = '/' ∨ c = '?'))
  match parseAuthority authority with
  | none => none
  | some (hostRaw, port) =>
    if hostRaw = [] then none
    else
      let path0 := tail0.takeWhile (· ≠ '?')
      let query := match tail0.dropWhile (· ≠ '?') with
        | '?' :: q => some q
        | _ => none
      let path := if path0 = [] ∧ isSpecial scheme then "/".data else path0
      some ⟨scheme, true, hostRaw.map Char.toLower, normalizePort scheme port, path, query, fragment⟩

/-- Parse an opaque (cannot-be-a-base) body: the path runs to the first `?`.
Special schemes without `//` are outside the model. -/
def parseOpaquePath (scheme body : List Char) (fragment : Option (List Char)) : Option Url :=
  if isSpecial scheme then none
  else
    let path0 := body.takeWhile (· ≠ '?')
    let query := match body.dropWhile (· ≠ '?') with
      | '?' :: q => some q
      | _ => none
    some ⟨scheme, false, [], none, path0, query, fragment⟩

/-- Parse what follows `scheme:` (the fragment already split off). -/
def parseBody (scheme body : List Char) (fragment : Option (List Char)) : Option Url :=
  if body.take 2 = "//".data then parseHier scheme (body.drop 2) fragment
  else parseOpaquePath scheme body fragment

/-- A valid scheme: nonempty, starts with a letter, made of scheme chars. -/
def schemeOk (scheme : List Char) : Bool :=
  match scheme with
  | [] => false
  | c0 :: _ => c0.isAlpha ∧ scheme.all schemeCharOk

/-- Model of `reqwest::Url::parse` on the URL shapes described above. -/
def parseUrlCs (cs : List Char) : Option Url :=
  match splitFirst ':' cs with
  | none => none
  | some (schemeRaw, rest) =>
    let scheme := schemeRaw.map Char.toLower
    if schemeOk scheme then
      let beforeFrag := match splitFirst '#' rest with
        | some p => p.1
        | none => rest
      let fragment := (splitFirst '#' rest).map (·.2)
      parseBody scheme beforeFrag fragment
    else none

/-- Model of `Url::to_string`. -/
def renderUrlCs (u : Url) : List Char :=
  let portPart := match u.port with
    | some p => ':' :: (Nat.repr p).data
    | none => []
  let queryPart := match u.query with
    | some q => '?' :: q
    | none => []
  let fragPart := match u.fragment with
    | some f => '#' :: f
    | none => []
  if u.hasAuthority then
    u.scheme ++ ':' :: '/' :: '/' :: (u.host ++ portPart ++ u.path ++ queryPart ++ fragPart)
  else
    u.scheme ++ ':' :: (u.path ++ queryPart ++ fragPart)

/-! ## Cache key normalizer (`logic.rs::get_cache_key`) -/

/-- The key of one `&`-separated query parameter: the substring before the
first `=` (`part.split('=').next().unwrap_or("")`). -/
def queryPartKey (part : List Char) : List Char :=
  part.takeWhile (· ≠ '=')

/-- The query-filtering step of `get_cache_key`: drop every parameter whose
key is `sourceId`, and append the remainder to the path after `?` only when
at least one parameter is left. -/
def stripSourceIdQuery (path query : List Char) : List Char :=
  let keptParts := (splitSep '&' query).filter (fun part => ¬ queryPartKey part = "sourceId".data)
  if keptParts = [] then path else path ++ '?' :: joinSep '&' keptParts

/-- The language-free raw key of `get_cache_key`: the parsed URL's path plus
its non-`sourceId` query parameters, or the raw string when parsing fails. -/
def rawCacheKeyCs (urlCs : List Char) : List Char :=
  match parseUrlCs urlCs with
  | some parsed =>
    match parsed.query with
    | some query =>
      if ¬ query = [] then stripSourceIdQuery parsed.path query else parsed.path
    | none => parsed.path
  | none => urlCs

/-- Model of `logic.rs::get_cache_key`: strip scheme/host/`sourceId` from the URL and,
when a language is given, strip leading `/` and prepend `lang/<language>/`. -/
def get_cache_key (url : String) (language : Option OcrLanguage) : String :=
  let raw := rawCacheKeyCs url.data
  match language with
  | some language =>
    let trimmed := raw.dropWhile (· = '/')
    if trimmed = [] then "lang/" ++ language.as_str ++ "/"
    else "lang/" ++ language.as_str ++ "/" ++ String.mk trimmed
  | none => String.mk raw

/-- The spec's `trimLeadingSlash`: the string with all leading `/` removed. -/
def trimLeadingSlashes (s : String) : String :=
  String.mk (s.data.dropWhile (· = '/'))

/-! ## Helper lemmas about the character-list operations -/

theorem str_data_append (a b : String) : (a ++ b).data = a.data ++ b.data := rfl

theorem splitFirst_append_some {sep : Char} (ext : List Char) :
    ∀ {cs a b : List Char}, splitFirst sep cs = some (a, b) →
      splitFirst sep (cs ++ ext) = some (a, b ++ ext) := by
  intro cs
  induction cs with
  | nil => intro a b h; simp [splitFirst] at h
  | cons c rest ih =>
    intro a b h
    by_cases hc : c = sep
    · simp only [splitFirst, if_pos hc, Option.some.injEq, Prod.mk.injEq] at h
      obtain ⟨rfl, rfl⟩ := h
      simp [splitFirst, if_pos hc]
    · simp only [splitFirst, if_neg hc] at h
      cases hs : splitFirst sep rest with
      | none => rw [hs] at h; simp at h
      | some p =>
        rw [hs] at h
        simp only [Option.map_some', Option.some.injEq, Prod.mk.injEq] at h
        obtain ⟨rfl, rfl⟩ := h
        simp [splitFirst, if_neg hc, ih hs]

theorem splitFirst_eq_none_iff {sep : Char} {cs : List Char} :
    splitFirst sep cs = none ↔ sep ∉ cs := by
  induction cs with
  | nil => simp [splitFirst]
  | cons c rest ih =>
    by_cases hc : c = sep
    · subst hc; simp [splitFirst]
    · simp only [splitFirst, if_neg hc, List.mem_cons]
      rw [Option.map_eq_none']
      constructor
      · intro h hmem
        rcases hmem with h1 | h2
        · exact hc h1.symm
        · exact (ih.mp h) h2
      · intro h
        exact ih.mpr (fun hm => h (Or.inr hm))

theorem takeWhile_append_of_ne_nil {p : Char → Bool} {l : List Char} (e : List Char)
    (h : l.dropWhile p ≠ []) : (l ++ e).takeWhile p = l.takeWhile p := by
  induction l with
  | nil => simp [List.dropWhile] at h
  | cons c t ih =>
    by_cases hc : p c
    · simp only [List.dropWhile_cons, if_pos hc] at h
      simp [List.takeWhile_cons, hc, ih h]
    · simp [List.takeWhile_cons, hc]

theorem dropWhile_append_of_ne_nil {p : Char → Bool} {l : List Char} (e : List Char)
    (h : l.dropWhile p ≠ []) : (l ++ e).dropWhile p = l.dropWhile p ++ e := by
  induction l with
  | nil => simp [List.dropWhile] at h
  | cons c t ih =>
    by_cases hc : p c
    · simp only [List.dropWhile_cons, if_pos hc] at h
      simp [List.dropWhile_cons, hc, ih h]
    · simp [List.dropWhile_cons, hc]

theorem take_append_of_le_len {n : Nat} {l : List Char} (e : List Char)
    (h : n ≤ l.length) : (l ++ e).take n = l.take n := by
  induction l generalizing n with
  | nil =>
    have hn : n = 0 := Nat.le_zero.mp h
    subst hn; simp
  | cons c t ih =>
    cases n with
    | zero => simp
    | succ m =>
      simp only [List.length_cons, Nat.succ_le_succ_iff] at h
      simp [List.take_succ_cons, ih h]

theorem splitSep_ne_nil (sep : Char) (l : List Char) : splitSep sep l ≠ [] := by
  cases l with
  | nil => simp [splitSep]
  | cons c rest =>
    by_cases hc : c = sep
    · simp [splitSep, hc]
    · simp only [splitSep, if_neg hc]
      cases splitSep sep rest <;> simp

theorem splitSep_append_sep (sep : Char) (a b : List Char) :
    splitSep sep (a ++ sep :: b) = splitSep sep a ++ splitSep sep b := by
  induction a with
  | nil => simp [splitSep]
  | cons c t ih =>
    by_cases hc : c = sep
    · simp [splitSep, hc, ih]
    · simp only [List.cons_append, splitSep, if_neg hc, List.append_eq]
      rw [ih]
      cases ht : splitSep sep t with
      | nil => exact absurd ht (splitSep_ne_nil sep t)
      | cons p ps => simp

theorem splitSep_eq_single {sep : Char} {l : List Char} (h : sep ∉ l) :
    splitSep sep l = [l] := by
  induction l with
  | nil => simp [splitSep]
  | cons c rest ih =>
    simp only [List.mem_cons, not_or] at h
    have hc : ¬ c = sep := fun hh => h.1 hh.symm
    simp [splitSep, hc, ih h.2]

/-! ## Parser lemmas: appending query text -/

theorem parseHier_fragment {scheme s : List Char} {frag : Option (List Char)} {u : Url}
    (h : parseHier scheme s frag = some u) : u.fragment = frag := by
  simp only [parseHier] at h
  cases hpa : parseAuthority (s.takeWhile fun c => ¬ (c = '/' ∨ c = '?')) with
  | none => rw [hpa] at h; simp at h
  | some hp =>
    obtain ⟨hostRaw, port⟩ := hp
    rw [hpa] at h
    dsimp only [] at h
    by_cases hh : hostRaw = []
    · rw [if_pos hh] at h; simp at h
    · rw [if_neg hh] at h
      injection h with h'
      subst h'
      rfl

theorem parseOpaquePath_fragment {scheme body : List Char} {frag : Option (List Char)} {u : Url}
    (h : parseOpaquePath scheme body frag = some u) : u.fragment = frag := by
  simp only [parseOpaquePath] at h
  by_cases hs : isSpecial scheme
  · rw [if_pos hs] at h; simp at h
  · rw [if_neg hs] at h
    injection h with h'
    subst h'
    rfl

theorem parseBody_fragment {scheme body : List Char} {frag : Option (List Char)} {u : Url}
    (h : parseBody scheme body frag = some u) : u.fragment = frag := by
  simp only [parseBody] at h
  by_cases h2 : body.take 2 = "//".data
  · rw [if_pos h2] at h; exact parseHier_fragment h
  · rw [if_neg h2] at h; exact parseOpaquePath_fragment h

theorem parseHier_append_query {scheme s : List Char} {frag : Option (List Char)}
    {u : Url} {q : List Char} (ext : List Char)
    (h : parseHier scheme s frag = some u) (hq : u.query = some q) :
    parseHier scheme (s ++ ext) frag = some { u with query := some (q ++ ext) } := by
  simp only [parseHier] at h ⊢
  cases hpa : parseAuthority (s.takeWhile fun c => ¬ (c = '/' ∨ c = '?')) with
  | none => rw [hpa] at h; simp at h
  | some hp =>
    obtain ⟨hostRaw, port⟩ := hp
    rw [hpa] at h
    dsimp only [] at h
    by_cases hh : hostRaw = []
    · rw [if_pos hh] at h; simp at h
    · rw [if_neg hh] at h
      injection h with h'
      subst h'
      simp only [Url.query] at hq
      split at hq
      · rename_i q' hdw
        injection hq with hq'
        subst hq'
        have htail_ne : s.dropWhile (fun c => ¬ (c = '/' ∨ c = '?')) ≠ [] := by
          intro hnil; rw [hnil] at hdw; simp [List.dropWhile] at hdw
        have hdw_ne : (s.dropWhile fun c => ¬ (c = '/' ∨ c = '?')).dropWhile (· ≠ '?') ≠ [] := by
          rw [hdw]; simp
        rw [takeWhile_append_of_ne_nil ext htail_ne,
          dropWhile_append_of_ne_nil ext htail_ne, hpa]
        dsimp only []
        rw [if_neg hh, takeWhile_append_of_ne_nil ext hdw_ne,
          dropWhile_append_of_ne_nil ext hdw_ne, hdw]
        simp [List.cons_append]
      · simp at hq

theorem parseOpaquePath_append_query {scheme body : List Char} {frag : Option (List Char)}
    {u : Url} {q : List Char} (ext : List Char)
    (h : parseOpaquePath scheme body frag = some u) (hq : u.query = some q) :
    parseOpaquePath scheme (body ++ ext) frag = some { u with query := some (q ++ ext) } := by
  simp only [parseOpaquePath] at h ⊢
  by_cases hs : isSpecial scheme
  · rw [if_pos hs] at h; simp at h
  · rw [if_neg hs] at h ⊢
    injection h with h'
    subst h'
    simp only [Url.query] at hq
    split at hq
    · rename_i q' hdw
      injection hq with hq'
      subst hq'
      have hdw_ne : body.dropWhile (· ≠ '?') ≠ [] := by
        rw [hdw]; simp
      rw [takeWhile_append_of_ne_nil ext hdw_ne,
        dropWhile_append_of_ne_nil ext hdw_ne, hdw]
      simp [List.cons_append]
    · simp at hq

theorem body_length_of_query {body q : List Char} {p : Char → Bool}
    (hdw : body.dropWhile p = '?' :: q) (hq : q ≠ []) : 2 ≤ body.length := by
  have hsub : (body.dropWhile p).length ≤ body.length :=
    (List.dropWhile_sublist p).length_le
  rw [hdw] at hsub
  rcases q with _ | ⟨a, t⟩
  · exact absurd rfl hq
  · simp only [List.length_cons] at hsub
    omega

theorem drop_append_of_le_len {n : Nat} {l : List Char} (e : List Char)
    (h : n ≤ l.length) : (l ++ e).drop n = l.drop n ++ e := by
  induction l generalizing n with
  | nil =>
    have hn : n = 0 := Nat.le_zero.mp h
    subst hn; simp
  | cons c t ih =>
    cases n with
    | zero => simp
    | succ m =>
      simp only [List.length_cons, Nat.succ_le_succ_iff] at h
      simp [ih h]

theorem parseOpaquePath_query_shape {scheme body : List Char} {frag : Option (List Char)}
    {u : Url} {q : List Char}
    (h : parseOpaquePath scheme body frag = some u) (hq : u.query = some q) :
    body.dropWhile (· ≠ '?') = '?' :: q := by
  simp only [parseOpaquePath] at h
  by_cases hs : isSpecial scheme
  · rw [if_pos hs] at h; simp at h
  · rw [if_neg hs] at h
    injection h with h'
    subst h'
    simp only [Url.query] at hq
    split at hq
    · rename_i q' hdw
      injection hq with hq'
      subst hq'
      exact hdw
    · simp at hq

theorem parseBody_append_query {scheme body : List Char} {frag : Option (List Char)}
    {u : Url} {q : List Char} (ext : List Char)
    (h : parseBody scheme body frag = some u) (hq : u.query = some q) (hqne : q ≠ []) :
    parseBody scheme (body ++ ext) frag = some { u with query := some (q ++ ext) } := by
  simp only [parseBody] at h ⊢
  by_cases h2 : body.take 2 = "//".data
  · have hlen : 2 ≤ body.length := by
      have h5 := congrArg List.length h2
      rw [List.length_take] at h5
      have h6 : ("//".data).length = 2 := by decide
      rw [h6] at h5
      omega
    rw [take_append_of_le_len ext hlen, if_pos h2, drop_append_of_le_len ext hlen]
    rw [if_pos h2] at h
    exact parseHier_append_query ext h hq
  · rw [if_neg h2] at h
    have hshape := parseOpaquePath_query_shape h hq
    have hlen : 2 ≤ body.length := body_length_of_query hshape hqne
    rw [take_append_of_le_len ext hlen, if_neg h2]
    exact parseOpaquePath_append_query ext h hq

theorem parseUrlCs_append_query {cs : List Char} {u : Url} {q : List Char} (ext : List Char)
    (h : parseUrlCs cs = some u) (hq : u.query = some q) (hqne : q ≠ [])
    (hfrag : u.fragment = none) (hext : '#' ∉ ext) :
    parseUrlCs (cs ++ ext) = some { u with query := some (q ++ ext) } := by
  simp only [parseUrlCs] at h ⊢
  cases hsp : splitFirst ':' cs with
  | none => rw [hsp] at h; simp at h
  | some pr =>
    obtain ⟨schemeRaw, rest⟩ := pr
    rw [hsp] at h
    rw [splitFirst_append_some ext hsp]
    dsimp only [] at h ⊢
    by_cases hok : schemeOk (schemeRaw.map Char.toLower)
    · rw [if_pos hok] at h ⊢
      cases hsf : splitFirst '#' rest with
      | some pf =>
        rw [hsf] at h
        dsimp only [] at h
        have hfr := parseBody_fragment h
        rw [hfrag] at hfr
        simp at hfr
      | none =>
        rw [hsf] at h
        dsimp only [] at h
        have hnomem : '#' ∉ rest := splitFirst_eq_none_iff.mp hsf
        have hsf2 : splitFirst '#' (rest ++ ext) = none := by
          rw [splitFirst_eq_none_iff]
          simp only [List.mem_append, not_or]
          exact ⟨hnomem, hext⟩
        rw [hsf2]
        dsimp only []
        exact parseBody_append_query ext h hq hqne
    · rw [if_neg hok] at h
      simp at h

/-- The raw (language-free) cache key depends only on the parsed path and
query. -/
theorem rawCacheKeyCs_parse {cs : List Char} {u : Url} (h : parseUrlCs cs = some u) :
    rawCacheKeyCs cs =
      (match u.query with
       | some query => if ¬ query = [] then stripSourceIdQuery u.path query else u.path
       | none => u.path) := by
  unfold rawCacheKeyCs
  rw [h]

theorem get_cache_key_congr {url1 url2 : String} (lang : Option OcrLanguage)
    (hraw : rawCacheKeyCs url1.data = rawCacheKeyCs url2.data) :
    get_cache_key url1 lang = get_cache_key url2 lang := by
  simp only [get_cache_key, hraw]

/-- Appending a `sourceId` parameter (with an `&`-free, `#`-free value) to a
nonempty query leaves the filtered query unchanged. -/
theorem stripSourceIdQuery_append_sourceId (path q X : List Char) (hX : '&' ∉ X) :
    stripSourceIdQuery path (q ++ '&' :: ("sourceId=".data ++ X)) = stripSourceIdQuery path q := by
  unfold stripSourceIdQuery
  rw [splitSep_append_sep]
  have hmem : '&' ∉ "sourceId=".data ++ X := by
    simp only [List.mem_append, not_or]
    exact ⟨by decide, hX⟩
  rw [splitSep_eq_single hmem, List.filter_append]
  have h2 : queryPartKey ("sourceId=".data ++ X) = "sourceId".data := by
    unfold queryPartKey
    rw [takeWhile_append_of_ne_nil X (by decide)]
    decide
  have h4 : List.filter (fun part => ¬ queryPartKey part = "sourceId".data)
      ["sourceId=".data ++ X] = [] := by
    rw [List.filter_cons_of_neg, List.filter_nil]
    simpa using h2
  rw [h4, List.append_nil]

theorem string_mk_data (cs : List Char) : (String.mk cs).data = cs := rfl

theorem str_eq_of_data {s t : String} (h : s.data = t.data) : s = t :=
  congrArg String.mk h

/-! ## Claims C3 and C7: cache-key normalization -/

/-- C3, counterexample.  The claim quantifies over every string `X` and every
URL.  It fails (1) for a URL with no query: the appended `&sourceId=1` becomes
part of the path, and (2) for an `X` containing `&`: the extra `&b=2` becomes
a second, kept parameter. -/
theorem c3_counterexample :
    get_cache_key ("http://h/p" ++ "&sourceId=" ++ "1") none ≠
      get_cache_key "http://h/p" none ∧
    get_cache_key ("http://h/p?a=1" ++ "&sourceId=" ++ "1&b=2") none ≠
      get_cache_key "http://h/p?a=1" none := by
  constructor <;> decide

/-- C3 (amended): (1) two URLs that parse with the same path and query — in
particular URLs differing only in scheme or host — get the same cache key for
every language option; (2) appending `"&sourceId=" ++ X` to a URL that parses
with a nonempty query and no fragment leaves the key unchanged, provided `X`
contains no `&` and no `#`. -/
theorem c3_cache_key_scheme_host_sourceid :
    (∀ (url1 url2 : String) (lang : Option OcrLanguage) (u1 u2 : Url),
      parseUrlCs url1.data = some u1 → parseUrlCs url2.data = some u2 →
      u1.path = u2.path → u1.query = u2.query →
      get_cache_key url1 lang = get_cache_key url2 lang) ∧
    (∀ (url X : String) (lang : Option OcrLanguage) (u : Url) (q : List Char),
      parseUrlCs url.data = some u → u.query = some q → ¬ q = [] → u.fragment = none →
      '&' ∉ X.data → '#' ∉ X.data →
      get_cache_key (url ++ "&sourceId=" ++ X) lang = get_cache_key url lang) := by
  constructor
  · intro url1 url2 lang u1 u2 h1 h2 hpath hquery
    apply get_cache_key_congr
    rw [rawCacheKeyCs_parse h1, rawCacheKeyCs_parse h2, hpath, hquery]
  · intro url X lang u q hp hq hqne hfrag hX hX2
    apply get_cache_key_congr
    have hdata : (url ++ "&sourceId=" ++ X).data
        = url.data ++ ('&' :: ("sourceId=".data ++ X.data)) := by
      have hlit : "&sourceId=".data = ['&', 's', 'o', 'u', 'r', 'c', 'e', 'I', 'd', '='] := by
        decide
      have hlit2 : "sourceId=".data = ['s', 'o', 'u', 'r', 'c', 'e', 'I', 'd', '='] := by
        decide
      simp [str_data_append, hlit, hlit2]
    have hext : '#' ∉ '&' :: ("sourceId=".data ++ X.data) := by
      simp only [List.mem_cons, List.mem_append, not_or]
      exact ⟨by decide, by decide, hX2⟩
    have hparse2 := parseUrlCs_append_query ('&' :: ("sourceId=".data ++ X.data))
      hp hq hqne hfrag hext
    rw [hdata, rawCacheKeyCs_parse hparse2, rawCacheKeyCs_parse hp, hq]
    dsimp only []
    rw [if_pos hqne]
    rw [if_pos (show ¬ (q ++ '&' :: ("sourceId=".data ++ X.data)) = [] by simp)]
    exact stripSourceIdQuery_append_sourceId u.path q X.data hX

/-- C7: for every URL and language `L`, the cache key is exactly
`"lang/" ++ L ++ "/"` followed by the language-free key with all leading `/`
removed; when that trimmed key is empty the result is exactly
`"lang/" ++ L ++ "/"`. -/
theorem c7_language_key_shape :
    ∀ (url : String) (L : OcrLanguage),
      get_cache_key url (some L) =
        "lang/" ++ L.as_str ++ "/" ++ trimLeadingSlashes (get_cache_key url none) ∧
      (trimLeadingSlashes (get_cache_key url none) = "" →
        get_cache_key url (some L) = "lang/" ++ L.as_str ++ "/") := by
  intro url L
  have hmain : get_cache_key url (some L) =
      "lang/" ++ L.as_str ++ "/" ++ trimLeadingSlashes (get_cache_key url none) := by
    simp only [get_cache_key, trimLeadingSlashes, string_mk_data]
    by_cases ht : (rawCacheKeyCs url.data).dropWhile (· = '/') = []
    · rw [if_pos ht, ht]
      apply str_eq_of_data
      simp [str_data_append, string_mk_data]
    · rw [if_neg ht]
  refine ⟨hmain, fun h => ?_⟩
  rw [hmain, h]
  apply str_eq_of_data
  simp [str_data_append]

/-! ## SQLite LIKE

Default SQLite `LIKE`: `%` matches any sequence, `_` matches any single
character, and plain characters compare ASCII case-insensitively.  The code
builds patterns `{key}%`, `{key}?sourceId=%`, `{key}&sourceId=%` by string
interpolation, so wildcard characters inside a key keep their LIKE meaning. -/

/-- ASCII case-insensitive character comparison (SQLite default collation for
`LIKE`). -/
def likeCharEq (a b : Char) : Bool := a.toLower = b.toLower

/-- Model of `LIKE` matching with explicit fuel; a fuel of
`pattern.length + s.length + 1` is enough, since every step shortens the
pattern or the string. -/
def likeMatchFuel : Nat → List Char → List Char → Bool
  | 0, _, _ => false
  | _ + 1, [], s => s = []
  | fuel + 1, '%' :: ps, s =>
    likeMatchFuel fuel ps s ||
      (match s with
       | [] => false
       | _ :: cs => likeMatchFuel fuel ('%' :: ps) cs)
  | fuel + 1, '_' :: ps, s =>
    (match s with
     | [] => false
     | _ :: cs => likeMatchFuel fuel ps cs)
  | fuel + 1, p :: ps, s =>
    (match s with
     | [] => false
     | c :: cs => likeCharEq p c && likeMatchFuel fuel ps cs)

/-- Model of `s LIKE pattern` under SQLite's default semantics. -/
def likeMatch (pattern s : List Char) : Bool :=
  likeMatchFuel (pattern.length + s.length + 1) pattern s

/-! ## Cache store data model (`state.rs`)

`f64` coordinates are modelled as `ℚ`; the JSON round trip of `data` through
the `BLOB` column (`serde_json::to_vec` / `from_slice`) is modelled as the
identity on the stored list. -/

/-- Model of `logic.rs::BoundingBox`. -/
structure BoundingBox where
  x : ℚ
  y : ℚ
  width : ℚ
  height : ℚ
  rotation : Option ℚ
deriving DecidableEq

/-- Model of `logic.rs::OcrResult`. -/
structure OcrResult where
  text : String
  tight_bounding_box : BoundingBox
  is_merged : Option Bool
  forced_orientation : Option String
deriving DecidableEq

/-- Model of `state.rs::CacheEntry`. -/
structure CacheEntry where
  context : String
  data : List OcrResult
deriving DecidableEq

/-- One row of the `ocr_cache` table. -/
structure OcrRow where
  context : String
  data : List OcrResult
  created_at : Int
  last_processed_at : Int
  last_accessed_at : Int
  access_count : Nat
deriving DecidableEq

/-- One row of the `chapter_cache` table (primary key
`(chapter_key, cache_key)`). -/
structure ChapterCacheRow where
  chapter_key : String
  cache_key : String
  created_at : Int
deriving DecidableEq

/-- One row of the `chapter_pages` table (primary key `chapter_key`). -/
structure PagesRow where
  page_count : Nat
  processed_count : Nat
  created_at : Int
  last_accessed_at : Int
deriving DecidableEq

/-- The three tables of the OCR cache database. -/
structure DbState where
  ocr_cache : List (String × OcrRow)
  chapter_cache : List ChapterCacheRow
  chapter_pages : List (String × PagesRow)
deriving DecidableEq

/-- Exact-key lookup (SQL `WHERE key = ?`, first match; keys are primary, so
at most one row matches in reachable states). -/
def alGet {α : Type} : List (String × α) → String → Option α
  | [], _ => none
  | (k, v) :: t, key => if k = key then some v else alGet t key

/-- Update the row with the given key in place (SQL `UPDATE ... WHERE`). -/
def alUpdate {α : Type} (f : α → α) : List (String × α) → String → List (String × α)
  | [], _ => []
  | (k, v) :: t, key => if k = key then (k, f v) :: t else (k, v) :: alUpdate f t key

/-- Model of `AppState::cache_len`: `SELECT COUNT(*) FROM ocr_cache`. -/
def cache_len (db : DbState) : Nat := db.ocr_cache.length

/-- Model of `AppState::has_cache_entry`: exact-match existence check. -/
def has_cache_entry (db : DbState) (cache_key : String) : Bool :=
  (alGet db.ocr_cache cache_key).isSome

/-- Model of `AppState::has_cache_entry_prefix`: SQL `cache_key LIKE '{prefix}%'`. -/
def has_cache_entry_pfx (db : DbState) (pfx : String) : Bool :=
  db.ocr_cache.any (fun r => likeMatch (pfx.data ++ ['%']) r.1.data)

/-- Model of `AppState::insert_chapter_cache`: `INSERT OR IGNORE` on the composite
primary key. -/
def insert_chapter_cache (db : DbState) (chapter_key cache_key : String)
    (now : Int) : DbState :=
  if db.chapter_cache.any
      (fun r => r.chapter_key = chapter_key ∧ r.cache_key = cache_key) then db
  else { db with chapter_cache := db.chapter_cache ++ [⟨chapter_key, cache_key, now⟩] }

/-- Model of `AppState::count_chapter_cache`. -/
def count_chapter_cache (db : DbState) (chapter_key : String) : Nat :=
  (db.chapter_cache.filter (fun r => r.chapter_key = chapter_key)).length

/-- The metadata bump `get_cache_entry` performs on a hit. -/
def bumpRow (now : Int) (r : OcrRow) : OcrRow :=
  { r with last_accessed_at := now, access_count := r.access_count + 1 }

/-- Model of `AppState::get_cache_entry`: read `context`/`data`, and on a hit update
`last_accessed_at` and `access_count`. -/
def get_cache_entry (db : DbState) (cache_key : String) (now : Int) :
    Option CacheEntry × DbState :=
  let entry := (alGet db.ocr_cache cache_key).map (fun r => ⟨r.context, r.data⟩)
  (entry,
    if entry.isSome then
      { db with ocr_cache := alUpdate (bumpRow now) db.ocr_cache cache_key }
    else db)

/-- The row `insert_cache_entry` writes: `INSERT ... ON CONFLICT(cache_key)
DO UPDATE SET context/data/last_processed_at/last_accessed_at = excluded,
access_count = ocr_cache.access_count + 1`. -/
def upsertRow (cache_key : String) (entry : CacheEntry) (now : Int) :
    List (String × OcrRow) → List (String × OcrRow)
  | [] => [(cache_key, ⟨entry.context, entry.data, now, now, now, 1⟩)]
  | (k, r) :: t =>
    if k = cache_key then
      (k, ⟨entry.context, entry.data, r.created_at, now, now, r.access_count + 1⟩) :: t
    else (k, r) :: upsertRow cache_key entry now t

/-- Model of `AppState::insert_cache_entry`. -/
def insert_cache_entry (db : DbState) (cache_key : String) (entry : CacheEntry)
    (now : Int) : DbState :=
  { db with ocr_cache := upsertRow cache_key entry now db.ocr_cache }

/-- Model of `AppState::clear_cache`. -/
def clear_cache (_db : DbState) : DbState := ⟨[], [], []⟩

/-- The member cache keys of a chapter, as collected by `delete_chapter_ocr`
before it deletes the membership rows. -/
def memberKeys (db : DbState) (chapter_key : String) : List String :=
  (db.chapter_cache.filter (fun r => r.chapter_key = chapter_key)).map (·.cache_key)

/-- The per-member deletion criterion of `delete_chapter_ocr`:
`cache_key = ? OR cache_key LIKE '{key}?sourceId=%' OR cache_key LIKE
'{key}&sourceId=%'`. -/
def matchesMemberVariant (member key : String) : Bool :=
  key = member ∨
    likeMatch (member.data ++ "?sourceId=%".data) key.data ∨
    likeMatch (member.data ++ "&sourceId=%".data) key.data

/-- The loop over collected member keys: one `DELETE` per member, counts
summed. -/
def deleteMembersGo : List (String × OcrRow) × Nat → List String →
    List (String × OcrRow) × Nat
  | acc, [] => acc
  | acc, member :: rest =>
    let kept := acc.1.filter (fun r => ¬ matchesMemberVariant member r.1)
    deleteMembersGo (kept, acc.2 + (acc.1.length - kept.length)) rest

/-- Model of `AppState::delete_chapter_ocr` (the committed transaction): collect the
chapter's member keys, delete its `chapter_cache` and `chapter_pages` rows,
and when `delete_data` is set delete every `ocr_cache` row matching a member
or its `sourceId` LIKE variants; returns the three row counts. -/
def delete_chapter_ocr (db : DbState) (chapter_key : String) (delete_data : Bool) :
    DbState × (Nat × Nat × Nat) :=
  let cache_keys := if delete_data then memberKeys db chapter_key else []
  let keptChapter := db.chapter_cache.filter (fun r => ¬ r.chapter_key = chapter_key)
  let chapter_cache_rows := db.chapter_cache.length - keptChapter.length
  let keptPages := db.chapter_pages.filter (fun r => ¬ r.1 = chapter_key)
  let chapter_pages_rows := db.chapter_pages.length - keptPages.length
  let deleted := deleteMembersGo (db.ocr_cache, 0) cache_keys
  (⟨deleted.1, keptChapter, keptPages⟩,
    (chapter_cache_rows, chapter_pages_rows, deleted.2))

/-- Model of `AppState::export_cache`. -/
def export_cache (db : DbState) : List (String × CacheEntry) :=
  db.ocr_cache.map (fun r => (r.1, ⟨r.2.context, r.2.data⟩))

/-- The row an import inserts for a new key. -/
def freshRow (entry : CacheEntry) (now : Int) : OcrRow :=
  ⟨entry.context, entry.data, now, now, now, 1⟩

/-- The import loop: `INSERT OR IGNORE` per entry, counting inserts that
changed a row. -/
def importCacheGo (now : Int) : DbState × Nat → List (String × CacheEntry) →
    DbState × Nat
  | acc, [] => acc
  | acc, kv :: rest =>
    if (alGet acc.1.ocr_cache kv.1).isSome then importCacheGo now acc rest
    else
      importCacheGo now
        ({ acc.1 with ocr_cache := acc.1.ocr_cache ++ [(kv.1, freshRow kv.2 now)] },
          acc.2 + 1)
        rest

/-- Model of `AppState::import_cache` (the committed transaction). -/
def import_cache (db : DbState) (data : List (String × CacheEntry)) (now : Int) :
    DbState × Nat :=
  importCacheGo now (db, 0) data

/-- The `last_accessed_at` touch of the `chapter_pages` reads. -/
def touchPages (now : Int) (r : PagesRow) : PagesRow := { r with last_accessed_at := now }

/-- Model of `AppState::get_chapter_pages`. -/
def get_chapter_pages (db : DbState) (chapter_key : String) (now : Int) :
    Option Nat × DbState :=
  match alGet db.chapter_pages chapter_key with
  | some r =>
    (some r.page_count,
      { db with chapter_pages := alUpdate (touchPages now) db.chapter_pages chapter_key })
  | none => (none, db)

/-- Model of `AppState::get_chapter_progress`. -/
def get_chapter_progress (db : DbState) (chapter_key : String) (now : Int) :
    Option (Nat × Nat) × DbState :=
  match alGet db.chapter_pages chapter_key with
  | some r =>
    (some (r.page_count, r.processed_count),
      { db with chapter_pages := alUpdate (touchPages now) db.chapter_pages chapter_key })
  | none => (none, db)

/-- Model of `AppState::set_chapter_pages`: upsert keeping `processed_count` and
`created_at` on conflict. -/
def upsertPages (chapter_key : String) (page_count : Nat) (now : Int) :
    List (String × PagesRow) → List (String × PagesRow)
  | [] => [(chapter_key, ⟨page_count, 0, now, now⟩)]
  | (k, r) :: t =>
    if k = chapter_key then
      (k, { r with page_count := page_count, last_accessed_at := now }) :: t
    else (k, r) :: upsertPages chapter_key page_count now t

def set_chapter_pages (db : DbState) (chapter_key : String) (page_count : Nat)
    (now : Int) : DbState :=
  { db with chapter_pages := upsertPages chapter_key page_count now db.chapter_pages }

/-- Model of `AppState::set_chapter_progress`: upsert replacing both counters. -/
def upsertProgress (chapter_key : String) (page_count processed_count : Nat) (now : Int) :
    List (String × PagesRow) → List (String × PagesRow)
  | [] => [(chapter_key, ⟨page_count, processed_count, now, now⟩)]
  | (k, r) :: t =>
    if k = chapter_key then
      (k, ⟨page_count, processed_count, r.created_at, now⟩) :: t
    else (k, r) :: upsertProgress chapter_key page_count processed_count now t

def set_chapter_progress (db : DbState) (chapter_key : String)
    (page_count processed_count : Nat) (now : Int) : DbState :=
  { db with chapter_pages :=
      upsertProgress chapter_key page_count processed_count now db.chapter_pages }

/-! ## Claim C4: put then get on the cache table -/

theorem alGet_upsertRow (k : String) (e : CacheEntry) (now : Int) :
    ∀ xs : List (String × OcrRow),
      alGet (upsertRow k e now xs) k =
        some (match alGet xs k with
          | none => ⟨e.context, e.data, now, now, now, 1⟩
          | some r => ⟨e.context, e.data, r.created_at, now, now, r.access_count + 1⟩) := by
  intro xs
  induction xs with
  | nil => simp [upsertRow, alGet]
  | cons hd t ih =>
    obtain ⟨k2, r⟩ := hd
    by_cases hk : k2 = k
    · simp [upsertRow, alGet, hk]
    · simp [upsertRow, alGet, hk, ih]

/-- C4: a `get` right after a `put` returns the stored `data` unchanged; a
`put` on an absent key writes a row with `access_count = 1`; a `put` on a
present key replaces `context` and `data` wholesale, refreshes the processed
and accessed stamps, and increments `access_count` by exactly one. -/
theorem c4_cache_put_then_get :
    (∀ (db : DbState) (k : String) (e : CacheEntry) (now now2 : Int),
      ((get_cache_entry (insert_cache_entry db k e now) k now2).1).map (fun en => en.data)
        = some e.data) ∧
    (∀ (db : DbState) (k : String) (e : CacheEntry) (now : Int),
      alGet db.ocr_cache k = none →
      alGet (insert_cache_entry db k e now).ocr_cache k
        = some ⟨e.context, e.data, now, now, now, 1⟩) ∧
    (∀ (db : DbState) (k : String) (e2 : CacheEntry) (now2 : Int) (r : OcrRow),
      alGet db.ocr_cache k = some r →
      alGet (insert_cache_entry db k e2 now2).ocr_cache k
        = some ⟨e2.context, e2.data, r.created_at, now2, now2, r.access_count + 1⟩) := by
  refine ⟨?_, ?_, ?_⟩
  · intro db k e now now2
    simp only [get_cache_entry, insert_cache_entry]
    rw [alGet_upsertRow]
    cases alGet db.ocr_cache k <;> simp
  · intro db k e now h
    simp only [insert_cache_entry]
    rw [alGet_upsertRow, h]
  · intro db k e2 now2 r h
    simp only [insert_cache_entry]
    rw [alGet_upsertRow, h]

/-! ## Claim C6: bulk import -/

theorem alGet_append {α : Type} (xs ys : List (String × α)) (k : String) :
    alGet (xs ++ ys) k =
      (match alGet xs k with
       | some v => some v
       | none => alGet ys k) := by
  induction xs with
  | nil => simp [alGet]
  | cons hd t ih =>
    obtain ⟨k2, v⟩ := hd
    by_cases hk : k2 = k
    · simp [alGet, hk]
    · simp [alGet, hk, ih]

theorem alGet_single {α : Type} (k2 : String) (v : α) (k : String) :
    alGet [(k2, v)] k = if k2 = k then some v else none := by
  simp [alGet]

theorem importCacheGo_preserves (now : Int) :
    ∀ (data : List (String × CacheEntry)) (acc : DbState × Nat) (k : String),
      (alGet acc.1.ocr_cache k).isSome →
      alGet (importCacheGo now acc data).1.ocr_cache k = alGet acc.1.ocr_cache k := by
  intro data
  induction data with
  | nil => intro acc k _; rfl
  | cons kv rest ih =>
    intro acc k h
    simp only [importCacheGo]
    by_cases hin : (alGet acc.1.ocr_cache kv.1).isSome
    · rw [if_pos hin]
      exact ih acc k h
    · rw [if_neg hin]
      have hkeep : alGet (acc.1.ocr_cache ++ [(kv.1, freshRow kv.2 now)]) k
          = alGet acc.1.ocr_cache k := by
        rw [alGet_append]
        cases hk : alGet acc.1.ocr_cache k with
        | some v => rfl
        | none => rw [hk] at h; simp at h
      have h2 : (alGet ({ acc.1 with
          ocr_cache := acc.1.ocr_cache ++ [(kv.1, freshRow kv.2 now)] } : DbState).ocr_cache
            k).isSome := by
        simpa [hkeep] using h
      rw [ih _ k h2]
      simpa using hkeep

theorem importCacheGo_isSome (now : Int) :
    ∀ (data : List (String × CacheEntry)) (acc : DbState × Nat) (k : String),
      (alGet (importCacheGo now acc data).1.ocr_cache k).isSome ↔
        ((alGet acc.1.ocr_cache k).isSome ∨ k ∈ data.map (·.1)) := by
  intro data
  induction data with
  | nil => intro acc k; simp [importCacheGo]
  | cons kv rest ih =>
    intro acc k
    simp only [importCacheGo, List.map_cons, List.mem_cons]
    by_cases hin : (alGet acc.1.ocr_cache kv.1).isSome
    · rw [if_pos hin, ih]
      constructor
      · rintro (h | h)
        · exact Or.inl h
        · exact Or.inr (Or.inr h)
      · rintro (h | h | h)
        · exact Or.inl h
        · subst h; exact Or.inl hin
        · exact Or.inr h
    · rw [if_neg hin, ih]
      have hiff : (alGet (acc.1.ocr_cache ++ [(kv.1, freshRow kv.2 now)]) k).isSome
          ↔ ((alGet acc.1.ocr_cache k).isSome ∨ kv.1 = k) := by
        rw [alGet_append, alGet_single]
        cases hk : alGet acc.1.ocr_cache k with
        | some v => simp
        | none => by_cases hkk : kv.1 = k <;> simp [hkk]
      dsimp only []
      rw [hiff]
      constructor
      · rintro ((h | h) | h)
        · exact Or.inl h
        · exact Or.inr (Or.inl h.symm)
        · exact Or.inr (Or.inr h)
      · rintro (h | h | h)
        · exact Or.inl (Or.inl h)
        · exact Or.inl (Or.inr h.symm)
        · exact Or.inr h

theorem importCacheGo_count (now : Int) :
    ∀ (data : List (String × CacheEntry)) (acc : DbState × Nat),
      (data.map (·.1)).Nodup →
      (importCacheGo now acc data).2 =
        acc.2 + (data.filter (fun kv => ¬ (alGet acc.1.ocr_cache kv.1).isSome)).length := by
  intro data
  induction data with
  | nil => intro acc _; simp [importCacheGo]
  | cons kv rest ih =>
    intro acc hnodup
    simp only [List.map_cons, List.nodup_cons] at hnodup
    obtain ⟨hnotin, hnodup'⟩ := hnodup
    simp only [importCacheGo]
    by_cases hin : (alGet acc.1.ocr_cache kv.1).isSome
    · rw [if_pos hin, ih _ hnodup']
      rw [List.filter_cons_of_neg (by simp [hin])]
    · rw [if_neg hin, ih _ hnodup']
      rw [List.filter_cons_of_pos (by simp [hin])]
      have hsame : rest.filter
            (fun kv2 => ¬ (alGet (acc.1.ocr_cache ++ [(kv.1, freshRow kv.2 now)]) kv2.1).isSome)
          = rest.filter (fun kv2 => ¬ (alGet acc.1.ocr_cache kv2.1).isSome) := by
        apply List.filter_congr
        intro kv2 hmem
        have hne : kv.1 ≠ kv2.1 := by
          intro he
          exact hnotin (he ▸ List.mem_map_of_mem (·.1) hmem)
        rw [alGet_append, alGet_single, if_neg hne]
        cases alGet acc.1.ocr_cache kv2.1 <;> rfl
      rw [hsame]
      simp only [List.length_cons]
      omega

theorem importCacheGo_allPresent (now2 : Int) :
    ∀ (data : List (String × CacheEntry)) (acc : DbState × Nat),
      (∀ kv ∈ data, (alGet acc.1.ocr_cache kv.1).isSome) →
      importCacheGo now2 acc data = acc := by
  intro data
  induction data with
  | nil => intro acc _; rfl
  | cons kv rest ih =>
    intro acc h
    simp only [importCacheGo]
    rw [if_pos (h kv (List.mem_cons_self kv rest))]
    exact ih acc (fun kv2 hm => h kv2 (List.mem_cons_of_mem kv hm))

/-- C6: import leaves every already-present key's row untouched, makes
present exactly the old keys plus the imported keys, returns the number of
keys actually inserted (for a map, i.e. with no duplicate keys), and a
re-import of the same map returns 0 and changes nothing. -/
theorem c6_import_insert_if_absent :
    (∀ (db : DbState) (data : List (String × CacheEntry)) (now : Int) (k : String),
      (alGet db.ocr_cache k).isSome →
      alGet (import_cache db data now).1.ocr_cache k = alGet db.ocr_cache k) ∧
    (∀ (db : DbState) (data : List (String × CacheEntry)) (now : Int) (k : String),
      (alGet (import_cache db data now).1.ocr_cache k).isSome ↔
        ((alGet db.ocr_cache k).isSome ∨ k ∈ data.map (·.1))) ∧
    (∀ (db : DbState) (data : List (String × CacheEntry)) (now : Int),
      (data.map (·.1)).Nodup →
      (import_cache db data now).2 =
        (data.filter (fun kv => ¬ (alGet db.ocr_cache kv.1).isSome)).length) ∧
    (∀ (db : DbState) (data : List (String × CacheEntry)) (now now2 : Int),
      import_cache (import_cache db data now).1 data now2
        = ((import_cache db data now).1, 0)) := by
  refine ⟨?_, ?_, ?_, ?_⟩
  · intro db data now k h
    exact importCacheGo_preserves now data (db, 0) k h
  · intro db data now k
    exact importCacheGo_isSome now data (db, 0) k
  · intro db data now h
    have := importCacheGo_count now data (db, 0) h
    simpa [import_cache] using this
  · intro db data now now2
    apply importCacheGo_allPresent
    intro kv hm
    have h2 := (importCacheGo_isSome now data (db, 0) kv.1).mpr
      (Or.inr (List.mem_map_of_mem (·.1) hm))
    simpa [import_cache] using h2

/-! ## Claim C5: chapter deletion -/

theorem deleteMembersGo_fst :
    ∀ (ms : List String) (xs : List (String × OcrRow)) (n : Nat),
      (deleteMembersGo (xs, n) ms).1 =
        xs.filter (fun r => ¬ ms.any (fun m => matchesMemberVariant m r.1)) := by
  intro ms
  induction ms with
  | nil => intro xs n; simp [deleteMembersGo]
  | cons m rest ih =>
    intro xs n
    simp only [deleteMembersGo]
    rw [ih, List.filter_filter]
    apply List.filter_congr
    intro x _
    simp only [List.any_cons, Bool.not_or, decide_not]
    cases matchesMemberVariant m x.1 <;>
      cases rest.any (fun mm => matchesMemberVariant mm x.1) <;> rfl

/-- C5 (amended): `delete_chapter_ocr` always removes exactly the chapter's
membership rows and page-count row; with `delete_data = true` it additionally
removes exactly the `ocr_cache` rows whose key matches, under SQLite LIKE
semantics (`%`/`_` wildcards, ASCII case-insensitive), one of the collected
member keys or its `{key}?sourceId=%` / `{key}&sourceId=%` patterns; with
`delete_data = false` every cache row survives.  Rows matching no member
pattern — in particular those of chapters whose keys share no LIKE match —
are untouched; the whole deletion is a single transition (the committed
transaction). -/
theorem c5_delete_chapter_scope :
    (∀ (db : DbState) (ck : String),
      (delete_chapter_ocr db ck true).1 =
        ⟨db.ocr_cache.filter
            (fun r => ¬ (memberKeys db ck).any (fun m => matchesMemberVariant m r.1)),
          db.chapter_cache.filter (fun r => ¬ r.chapter_key = ck),
          db.chapter_pages.filter (fun r => ¬ r.1 = ck)⟩) ∧
    (∀ (db : DbState) (ck : String),
      (delete_chapter_ocr db ck false).1 =
        ⟨db.ocr_cache,
          db.chapter_cache.filter (fun r => ¬ r.chapter_key = ck),
          db.chapter_pages.filter (fun r => ¬ r.1 = ck)⟩) := by
  constructor
  · intro db ck
    simp only [delete_chapter_ocr, if_pos]
    rw [deleteMembersGo_fst]
  · intro db ck
    simp only [delete_chapter_ocr, if_neg]
    rw [deleteMembersGo_fst]
    simp

/-- Plain (case-sensitive, wildcard-free) string-prefix test, used to state
the claim's own notion of a `sourceId` variant (`key + "?sourceId=" + ...`). -/
def isPrefixCs : List Char → List Char → Bool
  | [], _ => true
  | _ :: _, [] => false
  | p :: ps, c :: cs => p = c && isPrefixCs ps cs

/-- The database of the C5 counterexample: chapter `c1` has member `a_b`,
chapter `c2` has member `axb`, and a legacy row `axb?sourceId=1` (a
`sourceId` variant of `c2`'s member only) is cached. -/
def c5ExampleDb : DbState :=
  ⟨[("a_b", ⟨"ctx", [], 0, 0, 0, 1⟩), ("axb", ⟨"ctx", [], 0, 0, 0, 1⟩),
      ("axb?sourceId=1", ⟨"ctx", [], 0, 0, 0, 1⟩)],
    [⟨"c1", "a_b", 0⟩, ⟨"c2", "axb", 0⟩],
    [("c1", ⟨1, 0, 0, 0⟩), ("c2", ⟨1, 0, 0, 0⟩)]⟩

/-- C5, counterexample.  The key `axb?sourceId=1` is neither equal to `c1`'s
only member `a_b` nor one of its `sourceId` variants in the claim's
concatenation sense, yet deleting chapter `c1` with `delete_data = true`
removes it: the SQL LIKE pattern `a_b?sourceId=%` treats `_` as a wildcard.
So a cache row belonging to another chapter does not survive. -/
theorem c5_counterexample :
    (¬ ("axb?sourceId=1" = "a_b" ∨
        isPrefixCs ("a_b" ++ "?sourceId=").data "axb?sourceId=1".data ∨
        isPrefixCs ("a_b" ++ "&sourceId=").data "axb?sourceId=1".data)) ∧
    alGet (delete_chapter_ocr c5ExampleDb "c1" true).1.ocr_cache "axb?sourceId=1" = none := by
  constructor
  · decide
  · decide

/-! ## Chapter status (`handlers.rs::chapter_status`) -/

/-- Model of `state.rs::JobProgress`. -/
structure JobProgress where
  current : Nat
  total : Nat
deriving DecidableEq

/-- Model of `handlers.rs::JobRequest` (the fields `chapter_status` reads; `user` and
`pass` only feed the external page-count request, modelled by the `resolve`
oracle). -/
structure JobRequest where
  base_url : String
  context : String
  pages : Option (List String)
  add_space_on_merge : Option Bool
  language : Option OcrLanguage
deriving DecidableEq

/-- The three JSON shapes `chapter_status` returns. -/
inductive ChapterStatusResult
  | processing (progress total : Nat)
  | idle (cached_count total_expected : Nat)
  | processed (cached_count total_expected : Nat)
deriving DecidableEq

/-- One page's cache test in the supplied-page-list branch: exact hit or a
`sourceId`-variant prefix hit. -/
def pageIsCached (db : DbState) (cache_key : String) : Bool :=
  has_cache_entry db cache_key ∨
    has_cache_entry_pfx db (cache_key ++ "?sourceId=") ∨
    has_cache_entry_pfx db (cache_key ++ "&sourceId=")

/-- The tail of `chapter_status`: when pages are cached but the total is
unknown, resolve it via the external page-count API (`resolve` oracle,
persisting a positive result), then classify. -/
def finishStatus (cached_count total_expected : Nat) (db : DbState)
    (job_key : String) (resolve : Except Unit Nat) (now : Int) :
    ChapterStatusResult × DbState :=
  let tdb : Nat × DbState :=
    if 0 < cached_count ∧ total_expected = 0 then
      match resolve with
      | .ok page_count =>
        if 0 < page_count then (page_count, set_chapter_pages db job_key page_count now)
        else (total_expected, db)
      | .error _ => (total_expected, db)
    else (total_expected, db)
  if 0 < tdb.1 ∧ tdb.1 ≤ cached_count then
    (.processed cached_count tdb.1, tdb.2)
  else (.idle cached_count tdb.1, tdb.2)

/-- Model of `handlers.rs::chapter_status`.  `jobs` is the in-memory
`active_chapter_jobs` map, `resolve` the outcome of
`resolve_total_pages_from_graphql`, `now` the timestamp for storage writes. -/
def chapter_status (jobs : List (String × JobProgress)) (db : DbState)
    (req : JobRequest) (resolve : Except Unit Nat) (now : Int) :
    ChapterStatusResult × DbState :=
  let language := req.language.getD langDefault
  let job_key := get_cache_key req.base_url (some language)
  match alGet jobs job_key with
  | some p => (.processing p.current p.total, db)
  | none =>
    match req.pages with
    | some page_list =>
      if page_list = [] then (.idle 0 0, db)
      else
        let cached_keys := page_list.filterMap (fun page =>
          let cache_key := get_cache_key page (some language)
          if pageIsCached db cache_key then some cache_key else none)
        let cached_count := cached_keys.length
        let tdb : Nat × DbState :=
          if 0 < cached_count then
            (page_list.length,
              cached_keys.foldl
                (fun d cache_key => insert_chapter_cache d job_key cache_key now)
                (set_chapter_pages db job_key page_list.length now))
          else (0, db)
        finishStatus cached_count tdb.1 tdb.2 job_key resolve now
    | none =>
      let cached_count := count_chapter_cache db job_key
      let tdb : Nat × DbState :=
        if 0 < cached_count then
          match get_chapter_progress db job_key now with
          | (some pr, db1) => (pr.1, db1)
          | (none, db1) =>
            match get_chapter_pages db1 job_key now with
            | (some pc, db2) => (pc, db2)
            | (none, db2) => (0, db2)
        else (0, db)
      finishStatus cached_count tdb.1 tdb.2 job_key resolve now

theorem finishStatus_spec (cc te : Nat) (db : DbState) (jk : String)
    (resolve : Except Unit Nat) (now : Int) :
    (match (finishStatus cc te db jk resolve now).1 with
     | .processing _ _ => False
     | .processed cc2 te2 => cc2 = cc ∧ 0 < te2 ∧ te2 ≤ cc2
     | .idle cc2 te2 => cc2 = cc ∧ ¬ (0 < te2 ∧ te2 ≤ cc2) : Prop) := by
  unfold finishStatus
  by_cases hc : 0 < (if 0 < cc ∧ te = 0 then
      match resolve with
      | .ok page_count =>
        if 0 < page_count then (page_count, set_chapter_pages db jk page_count now)
        else (te, db)
      | .error _ => (te, db)
    else (te, db) : Nat × DbState).1 ∧ (if 0 < cc ∧ te = 0 then
      match resolve with
      | .ok page_count =>
        if 0 < page_count then (page_count, set_chapter_pages db jk page_count now)
        else (te, db)
      | .error _ => (te, db)
    else (te, db) : Nat × DbState).1 ≤ cc
  · rw [if_pos hc]
    exact ⟨rfl, hc⟩
  · rw [if_neg hc]
    exact ⟨rfl, hc⟩

/-- C1: `chapter_status` reports `processing` with the live job's counters
exactly when an in-memory `JobProgress` exists for the chapter key; otherwise
an empty supplied page list yields `idle, 0, 0`; otherwise the reported
status is `processed` exactly when the reported `total_expected` is positive
and `cached_count` reaches it, and `idle` in every other case. -/
theorem c1_chapter_status_classification :
    ∀ (jobs : List (String × JobProgress)) (db : DbState) (req : JobRequest)
      (resolve : Except Unit Nat) (now : Int),
      (match alGet jobs (get_cache_key req.base_url (some (req.language.getD langDefault))) with
       | some p =>
         (chapter_status jobs db req resolve now).1
           = ChapterStatusResult.processing p.current p.total
       | none =>
         if req.pages = some ([] : List String) then
           (chapter_status jobs db req resolve now).1 = ChapterStatusResult.idle 0 0
         else
           (match (chapter_status jobs db req resolve now).1 with
            | .processing _ _ => False
            | .processed cc te => 0 < te ∧ te ≤ cc
            | .idle cc te => ¬ (0 < te ∧ te ≤ cc) : Prop) : Prop) := by
  intro jobs db req resolve now
  have hkey : ∀ (cc te : Nat) (dbX : DbState) (jk : String),
      (match (finishStatus cc te dbX jk resolve now).1 with
       | .processing _ _ => False
       | .processed cc2 te2 => 0 < te2 ∧ te2 ≤ cc2
       | .idle cc2 te2 => ¬ (0 < te2 ∧ te2 ≤ cc2) : Prop) := by
    intro cc te dbX jk
    have hs := finishStatus_spec cc te dbX jk resolve now
    cases hr : (finishStatus cc te dbX jk resolve now).1 with
    | processing a b => rw [hr] at hs; exact hs
    | processed a b => rw [hr] at hs; exact hs.2
    | idle a b => rw [hr] at hs; exact hs.2
  cases hj : alGet jobs (get_cache_key req.base_url (some (req.language.getD langDefault))) with
  | some p =>
    simp only [chapter_status]
    rw [hj]
  | none =>
    simp only [chapter_status]
    rw [hj]
    cases hp : req.pages with
    | none =>
      rw [if_neg (by simp [hp])]
      dsimp only []
      exact hkey _ _ _ _
    | some page_list =>
      by_cases he : page_list = []
      · subst he
        rw [if_pos rfl]
        dsimp only []
        rw [if_pos rfl]
      · rw [if_neg (by simp [he])]
        dsimp only []
        rw [if_neg he]
        exact hkey _ _ _ _

/-! ## Claim C2: the retry policy (`logic.rs::fetch_and_process`) -/

/-- The retry loop of `fetch_and_process`: for each attempt number in
`1..=3`, run `fetch_and_process_internal` (the `attempt` oracle); a success
returns immediately, a failure stores the error and sleeps `attempt_number`
seconds (recorded in the sleep trace) before the next iteration; after the
loop the stored error is returned.  Returns (result, sleep trace, attempts
run). -/
def retryGo {α : Type} (attempt : Nat → Except String α) :
    List Nat → String → List Nat → Nat → Except String α × List Nat × Nat
  | [], last_error, sleeps, tries => (.error last_error, sleeps, tries)
  | n :: rest, _, sleeps, tries =>
    match attempt n with
    | .ok result => (.ok result, sleeps, tries + 1)
    | .error e => retryGo attempt rest e (sleeps ++ [n]) (tries + 1)

/-- Model of `logic.rs::fetch_and_process` (instrumented with the sleep trace and
attempt count; the initial error is the placeholder `"Unknown error"`). -/
def fetch_and_process {α : Type} (attempt : Nat → Except String α) :
    Except String α × List Nat × Nat :=
  retryGo attempt [1, 2, 3] "Unknown error" [] 0

/-- C2, counterexample: when all three attempts fail, the code sleeps after
the *third* failure too (3 more seconds) before returning the error — the
sleep trace is `[1, 2, 3]`, not the `[1, 2]` the claim requires. -/
theorem c2_counterexample :
    (fetch_and_process (fun _ => (.error "e" : Except String Unit))).2.1 = [1, 2, 3] ∧
    (fetch_and_process (fun _ => (.error "e" : Except String Unit))).2.1 ≠ [1, 2] := by
  constructor
  · rfl
  · decide

/-- C2 (amended): at most 3 attempts; a success returns its result at once,
with sleeps of `1, 2, …` seconds only after the preceding failures; when all
three attempts fail the third failure's error is returned with no fourth
attempt — but only after a final 3-second sleep, so the sleep trace is
`[1, 2, 3]`. -/
theorem c2_retry_policy :
    ∀ (α : Type) (attempt : Nat → Except String α),
      (fetch_and_process attempt).2.2 ≤ 3 ∧
      (match attempt 1, attempt 2, attempt 3 with
       | .ok r, _, _ => fetch_and_process attempt = (.ok r, [], 1)
       | .error _, .ok r, _ => fetch_and_process attempt = (.ok r, [1], 2)
       | .error _, .error _, .ok r => fetch_and_process attempt = (.ok r, [1, 2], 3)
       | .error _, .error _, .error e3 =>
         fetch_and_process attempt = (.error e3, [1, 2, 3], 3)) := by
  intro α attempt
  constructor
  · cases h1 : attempt 1 <;> cases h2 : attempt 2 <;> cases h3 : attempt 3 <;>
      simp [fetch_and_process, retryGo, h1, h2, h3]
  · cases h1 : attempt 1 <;> cases h2 : attempt 2 <;> cases h3 : attempt 3 <;>
      simp [fetch_and_process, retryGo, h1, h2, h3]

/-! ## Claim C10: the pipeline fetches from localhost
(`logic.rs::fetch_and_process_internal`, step 0) -/

/-- Model of `Url::set_scheme` for the relevant rules: fails (URL unchanged)
when the new scheme is invalid or when it switches between special and
non-special. -/
def url_set_scheme (u : Url) (s : String) : Url :=
  if schemeOk s.data ∧ isSpecial u.scheme = isSpecial s.data then
    { u with scheme := s.data }
  else u

/-- Model of `Url::set_host (Some h)`: fails on cannot-be-a-base URLs. -/
def url_set_host (u : Url) (h : String) : Url :=
  if u.hasAuthority then { u with host := h.data } else u

/-- Model of `Url::set_port (Some p)`: fails on cannot-be-a-base URLs, URLs
without a host, and `file` URLs; a default port is stored as `none`. -/
def url_set_port (u : Url) (p : Option Nat) : Url :=
  if u.hasAuthority ∧ ¬ u.host = [] ∧ ¬ u.scheme = "file".data then
    { u with port := normalizePort u.scheme p }
  else u

/-- Step 0 of `fetch_and_process_internal`: parse the URL, force scheme
`http`, host `127.0.0.1`, port `4568` (each `let _ = …`, failures ignored),
and render; a string that does not parse is used verbatim. -/
def buildTargetUrl (url : String) : String :=
  match parseUrlCs url.data with
  | some parsed =>
    let p1 := url_set_scheme parsed "http"
    let p2 := url_set_host p1 "127.0.0.1"
    let p3 := url_set_port p2 (some 4568)
    String.mk (renderUrlCs p3)
  | none => url

/-- Non-special schemes have no default port. -/
theorem defaultPort_of_not_special {s : List Char} (h : isSpecial s = false) :
    defaultPort s = none := by
  simp only [isSpecial, decide_eq_false_iff_not, not_or] at h
  obtain ⟨h1, h2, h3, h4, h5, h6⟩ := h
  simp [defaultPort, h1, h2, h3, h4, h5, h6]

/-- C10, counterexample: `mailto:user@example.com` parses as an absolute URL,
but all three setters fail on it (non-special, cannot-be-a-base), so the
fetch uses the original URL with its original scheme — not
`http://127.0.0.1:4568`; and `foo://evil.example/path` parses but keeps its
original scheme `foo` (only host and port are rewritten), since `set_scheme`
refuses a non-special → special switch. -/
theorem c10_counterexample :
    (parseUrlCs ("mailto:user@example.com").data ≠ none ∧
      buildTargetUrl "mailto:user@example.com" = "mailto:user@example.com") ∧
    (parseUrlCs ("foo://evil.example/path").data ≠ none ∧
      buildTargetUrl "foo://evil.example/path" = "foo://127.0.0.1:4568/path") := by
  refine ⟨⟨?_, ?_⟩, ?_, ?_⟩ <;> decide

/-- C10 (amended): for every URL that parses as a hierarchical URL with a
special scheme (http, https, ws, wss, ftp, file), the fetch target is
`http://127.0.0.1:4568` followed by the original path, query and fragment;
a string that fails to parse is fetched verbatim.  A URL that parses with a
non-special scheme never has its scheme rewritten (`set_scheme` refuses a
special/non-special switch): a cannot-be-a-base one such as `mailto:` is
fetched exactly as parsed, all three rewrites failing, while a hierarchical
non-special one such as `foo://host/path` still has its host and port forced
to `127.0.0.1:4568` but keeps its original scheme. -/
theorem c10_forced_localhost :
    (∀ (url : String) (u : Url),
      parseUrlCs url.data = some u → u.hasAuthority = true → isSpecial u.scheme = true →
      buildTargetUrl url =
        String.mk ("http://127.0.0.1:4568".data ++ u.path
          ++ (match u.query with | some q => '?' :: q | none => [])
          ++ (match u.fragment with | some f => '#' :: f | none => []))) ∧
    (∀ url : String, parseUrlCs url.data = none → buildTargetUrl url = url) ∧
    (∀ (url : String) (u : Url),
      parseUrlCs url.data = some u → u.hasAuthority = false → isSpecial u.scheme = false →
      buildTargetUrl url = String.mk (renderUrlCs u)) ∧
    (∀ (url : String) (u : Url),
      parseUrlCs url.data = some u → u.hasAuthority = true → isSpecial u.scheme = false →
      buildTargetUrl url =
        String.mk (renderUrlCs
          { u with host := "127.0.0.1".data, port := some 4568 })) := by
  refine ⟨?_, ?_, ?_, ?_⟩
  · intro url u h hauth hsp
    simp only [buildTargetUrl]
    rw [h]
    dsimp only []
    have h1 : url_set_scheme u "http" = { u with scheme := "http".data } := by
      unfold url_set_scheme
      rw [if_pos ⟨by decide, by rw [hsp]; decide⟩]
    have h2 : url_set_host { u with scheme := "http".data } "127.0.0.1"
        = { u with scheme := "http".data, host := "127.0.0.1".data } := by
      unfold url_set_host
      rw [if_pos (by simpa using hauth)]
    have h3 : url_set_port { u with scheme := "http".data, host := "127.0.0.1".data }
          (some 4568)
        = { u with scheme := "http".data, host := "127.0.0.1".data, port := some 4568 } := by
      unfold url_set_port
      rw [if_pos ⟨by simpa using hauth, by dsimp only []; decide, by dsimp only []; decide⟩]
      first
        | rfl
        | (dsimp only []; congr 1; decide)
    rw [h1, h2, h3]
    simp only [renderUrlCs]
    rw [if_pos (by simpa using hauth)]
    apply str_eq_of_data
    have hrepr : (Nat.repr 4568).data = ['4', '5', '6', '8'] := by decide
    have hlit : ("http://127.0.0.1:4568").data
        = ['h', 't', 't', 'p', ':', '/', '/', '1', '2', '7', '.', '0', '.', '0', '.', '1',
            ':', '4', '5', '6', '8'] := by decide
    simp [string_mk_data, hrepr, hlit, List.append_assoc]
  · intro url h
    simp only [buildTargetUrl]
    rw [h]
  · intro url u h hauth hsp
    simp only [buildTargetUrl]
    rw [h]
    dsimp only []
    have h1 : url_set_scheme u "http" = u := by
      unfold url_set_scheme
      rw [if_neg]
      rintro ⟨-, he⟩
      rw [hsp] at he
      have ht : isSpecial "http".data = true := by decide
      rw [ht] at he
      simp at he
    have h2 : url_set_host u "127.0.0.1" = u := by
      unfold url_set_host
      rw [if_neg (by simp [hauth])]
    have h3 : url_set_port u (some 4568) = u := by
      unfold url_set_port
      rw [if_neg (by simp [hauth])]
    rw [h1, h2, h3]
  · intro url u h hauth hsp
    simp only [buildTargetUrl]
    rw [h]
    dsimp only []
    have h1 : url_set_scheme u "http" = u := by
      unfold url_set_scheme
      rw [if_neg]
      rintro ⟨-, he⟩
      rw [hsp] at he
      have ht : isSpecial "http".data = true := by decide
      rw [ht] at he
      simp at he
    have h2 : url_set_host u "127.0.0.1" = { u with host := "127.0.0.1".data } := by
      unfold url_set_host
      rw [if_pos (by simpa using hauth)]
    have hnf : ¬ u.scheme = "file".data := by
      intro he
      rw [he] at hsp
      exact absurd hsp (by decide)
    have h3 : url_set_port { u with host := "127.0.0.1".data } (some 4568)
        = { u with host := "127.0.0.1".data, port := some 4568 } := by
      unfold url_set_port
      rw [if_pos ⟨by simpa using hauth, by dsimp only []; decide,
        by dsimp only []; exact hnf⟩]
      dsimp only []
      have hport : normalizePort u.scheme (some 4568) = some 4568 := by
        unfold normalizePort
        rw [defaultPort_of_not_special hsp]
        simp
      rw [hport]
    rw [h1, h2, h3]

/-! ## Claim C8: geometry of recognized lines
(`logic.rs::get_raw_ocr_data` lines 443-510 and the remap of
`fetch_and_process_internal` lines 567-586; the `f32`/`f64` arithmetic is
modelled over `ℝ`) -/

/-- The geometry the external recognizer attaches to a line: center and
extents as fractions of the strip, rotation in radians. -/
structure Geometry where
  center_x : ℝ
  center_y : ℝ
  width : ℝ
  height : ℝ
  rotation_z : ℝ

/-- A bounding box over `ℝ` (the `rotation` field is cleared by the
axis-aligned reduction and omitted here). -/
structure BoundingBoxR where
  x : ℝ
  y : ℝ
  width : ℝ
  height : ℝ

/-- The corner offsets `[(-hw, -hh), (hw, -hh), (hw, hh), (-hw, hh)]`. -/
noncomputable def corners (hw hh : ℝ) : List (ℝ × ℝ) :=
  [(-hw, -hh), (hw, -hh), (hw, hh), (-hw, hh)]

/-- The x-coordinate of a corner offset rotated about the center. -/
noncomputable def rotX (cosA sinA cx : ℝ) (corner : ℝ × ℝ) : ℝ :=
  corner.1 * cosA - corner.2 * sinA + cx

/-- The y-coordinate of a corner offset rotated about the center. -/
noncomputable def rotY (cosA sinA cy : ℝ) (corner : ℝ × ℝ) : ℝ :=
  corner.1 * sinA + corner.2 * cosA + cy

/-- Minimum of the four corner coordinates (the `f64::INFINITY` fold of the
source over exactly four corners). -/
noncomputable def min4 (a b c d : ℝ) : ℝ := min (min (min a b) c) d

noncomputable def max4 (a b c d : ℝ) : ℝ := max (max (max a b) c) d

/-- The per-line geometry step of `get_raw_ocr_data`: center and half-extents
in strip pixels (the strip's width is the full image width), corners rotated
by `rotation_z` about the center, and the axis-aligned min/max box of the
rotated corners. -/
noncomputable def lineAabb (g : Geometry) (stripW stripH : ℝ) : BoundingBoxR :=
  let cx := g.center_x * stripW
  let cy := g.center_y * stripH
  let hw := g.width * stripW / 2
  let hh := g.height * stripH / 2
  let cosA := Real.cos g.rotation_z
  let sinA := Real.sin g.rotation_z
  let x1 := rotX cosA sinA cx (-hw, -hh)
  let x2 := rotX cosA sinA cx (hw, -hh)
  let x3 := rotX cosA sinA cx (hw, hh)
  let x4 := rotX cosA sinA cx (-hw, hh)
  let y1 := rotY cosA sinA cy (-hw, -hh)
  let y2 := rotY cosA sinA cy (hw, -hh)
  let y3 := rotY cosA sinA cy (hw, hh)
  let y4 := rotY cosA sinA cy (-hw, hh)
  ⟨min4 x1 x2 x3 x4, min4 y1 y2 y3 y4,
    max4 x1 x2 x3 x4 - min4 x1 x2 x3 x4,
    max4 y1 y2 y3 y4 - min4 y1 y2 y3 y4⟩

/-- The remap of `fetch_and_process_internal`: strip-pixel coordinates to
whole-image-normalized coordinates. -/
noncomputable def remapBox (b : BoundingBoxR) (globalY fullW fullH : ℝ) : BoundingBoxR :=
  ⟨b.x / fullW, (b.y + globalY) / fullH, b.width / fullW, b.height / fullH⟩

theorem min4_le {a b c d : ℝ} :
    min4 a b c d ≤ a ∧ min4 a b c d ≤ b ∧ min4 a b c d ≤ c ∧ min4 a b c d ≤ d := by
  refine ⟨?_, ?_, ?_, ?_⟩ <;> simp [min4, min_le_iff]

theorem le_max4 {a b c d : ℝ} :
    a ≤ max4 a b c d ∧ b ≤ max4 a b c d ∧ c ≤ max4 a b c d ∧ d ≤ max4 a b c d := by
  refine ⟨?_, ?_, ?_, ?_⟩ <;> simp [max4, le_max_iff]

theorem min4_mem (a b c d : ℝ) :
    min4 a b c d = a ∨ min4 a b c d = b ∨ min4 a b c d = c ∨ min4 a b c d = d := by
  unfold min4
  rcases le_total (min (min a b) c) d with h1 | h1
  · rw [min_eq_left h1]
    rcases le_total (min a b) c with h2 | h2
    · rw [min_eq_left h2]
      rcases le_total a b with h3 | h3
      · rw [min_eq_left h3]; tauto
      · rw [min_eq_right h3]; tauto
    · rw [min_eq_right h2]; tauto
  · rw [min_eq_right h1]; tauto

theorem max4_mem (a b c d : ℝ) :
    max4 a b c d = a ∨ max4 a b c d = b ∨ max4 a b c d = c ∨ max4 a b c d = d := by
  unfold max4
  rcases le_total d (max (max a b) c) with h1 | h1
  · rw [max_eq_left h1]
    rcases le_total c (max a b) with h2 | h2
    · rw [max_eq_left h2]
      rcases le_total b a with h3 | h3
      · rw [max_eq_left h3]; tauto
      · rw [max_eq_right h3]; tauto
    · rw [max_eq_right h2]; tauto
  · rw [max_eq_right h1]; tauto

theorem min4_add_sub (a b c d : ℝ) :
    min4 a b c d + (max4 a b c d - min4 a b c d) = max4 a b c d := by ring

theorem min4_mem_list (a b c d : ℝ) : min4 a b c d ∈ [a, b, c, d] := by
  rcases min4_mem a b c d with h | h | h | h <;> simp [h]

theorem max4_mem_list (a b c d : ℝ) : max4 a b c d ∈ [a, b, c, d] := by
  rcases max4_mem a b c d with h | h | h | h <;> simp [h]

theorem min4_le_of_mem {a b c d v : ℝ} (hv : v ∈ [a, b, c, d]) : min4 a b c d ≤ v := by
  rcases (by simpa using hv : v = a ∨ v = b ∨ v = c ∨ v = d) with rfl | rfl | rfl | rfl
  · exact min4_le.1
  · exact min4_le.2.1
  · exact min4_le.2.2.1
  · exact min4_le.2.2.2

theorem le_max4_of_mem {a b c d v : ℝ} (hv : v ∈ [a, b, c, d]) : v ≤ max4 a b c d := by
  rcases (by simpa using hv : v = a ∨ v = b ∨ v = c ∨ v = d) with rfl | rfl | rfl | rfl
  · exact le_max4.1
  · exact le_max4.2.1
  · exact le_max4.2.2.1
  · exact le_max4.2.2.2

/-- C8: the strip-pixel box is the axis-aligned min/max rectangle of the four
rotated corners — it bounds every rotated corner coordinate, its four edges
are attained by corner coordinates, the remap divides by the full dimensions
(with `globalY` added to `y`), and the spec's concrete instance: geometry
`{centerX 0.5, centerY 0.5, width 0.2, height 0.1, rotation 0}` on a
1000×1000 strip at `globalY = 0` of a 1000×2000 image yields the normalized
box `{x 0.4, y 0.225, width 0.2, height 0.05}`. -/
theorem c8_geometry_aabb_and_remap :
    (∀ (g : Geometry) (sW sH : ℝ),
      (∀ v ∈ (corners (g.width * sW / 2) (g.height * sH / 2)).map
          (rotX (Real.cos g.rotation_z) (Real.sin g.rotation_z) (g.center_x * sW)),
        (lineAabb g sW sH).x ≤ v ∧ v ≤ (lineAabb g sW sH).x + (lineAabb g sW sH).width) ∧
      (∀ v ∈ (corners (g.width * sW / 2) (g.height * sH / 2)).map
          (rotY (Real.cos g.rotation_z) (Real.sin g.rotation_z) (g.center_y * sH)),
        (lineAabb g sW sH).y ≤ v ∧ v ≤ (lineAabb g sW sH).y + (lineAabb g sW sH).height)) ∧
    (∀ (g : Geometry) (sW sH : ℝ),
      (lineAabb g sW sH).x ∈ (corners (g.width * sW / 2) (g.height * sH / 2)).map
        (rotX (Real.cos g.rotation_z) (Real.sin g.rotation_z) (g.center_x * sW)) ∧
      (lineAabb g sW sH).x + (lineAabb g sW sH).width
        ∈ (corners (g.width * sW / 2) (g.height * sH / 2)).map
          (rotX (Real.cos g.rotation_z) (Real.sin g.rotation_z) (g.center_x * sW)) ∧
      (lineAabb g sW sH).y ∈ (corners (g.width * sW / 2) (g.height * sH / 2)).map
        (rotY (Real.cos g.rotation_z) (Real.sin g.rotation_z) (g.center_y * sH)) ∧
      (lineAabb g sW sH).y + (lineAabb g sW sH).height
        ∈ (corners (g.width * sW / 2) (g.height * sH / 2)).map
          (rotY (Real.cos g.rotation_z) (Real.sin g.rotation_z) (g.center_y * sH))) ∧
    (∀ (b : BoundingBoxR) (gY W H : ℝ),
      (remapBox b gY W H).x = b.x / W ∧ (remapBox b gY W H).width = b.width / W ∧
      (remapBox b gY W H).y = (b.y + gY) / H ∧ (remapBox b gY W H).height = b.height / H) ∧
    remapBox (lineAabb ⟨1/2, 1/2, 1/5, 1/10, 0⟩ 1000 1000) 0 1000 2000
      = ⟨2/5, 9/40, 1/5, 1/20⟩ := by
  refine ⟨?_, ?_, ?_, ?_⟩
  · intro g sW sH
    constructor
    · intro v hv
      simp only [corners, List.map_cons, List.map_nil] at hv
      simp only [lineAabb]
      refine ⟨min4_le_of_mem hv, ?_⟩
      rw [min4_add_sub]
      exact le_max4_of_mem hv
    · intro v hv
      simp only [corners, List.map_cons, List.map_nil] at hv
      simp only [lineAabb]
      refine ⟨min4_le_of_mem hv, ?_⟩
      rw [min4_add_sub]
      exact le_max4_of_mem hv
  · intro g sW sH
    refine ⟨?_, ?_, ?_, ?_⟩
    · simp only [corners, List.map_cons, List.map_nil, lineAabb]
      exact min4_mem_list _ _ _ _
    · simp only [corners, List.map_cons, List.map_nil, lineAabb]
      rw [min4_add_sub]
      exact max4_mem_list _ _ _ _
    · simp only [corners, List.map_cons, List.map_nil, lineAabb]
      exact min4_mem_list _ _ _ _
    · simp only [corners, List.map_cons, List.map_nil, lineAabb]
      rw [min4_add_sub]
      exact max4_mem_list _ _ _ _
  · intro b gY W H
    exact ⟨rfl, rfl, rfl, rfl⟩
  · simp only [lineAabb, remapBox, rotX, rotY, Real.cos_zero, Real.sin_zero,
      BoundingBoxR.mk.injEq]
    norm_num [min4, max4, min_def, max_def]

/-! ## Claim C9: storage failures never propagate

Each `AppState` method first acquires a pooled connection (`let Ok(conn) =
self.pool.get() else { warn; return default }`) and then executes statements
whose failures are absorbed (`unwrap_or`, `if let Ok`, `let _ =`).
`StorageEnv` models both failure points: `conn_ok` is whether the pool yields
a connection, `stmt_ok i` whether the i-th statement executed in the call
succeeds. -/

structure StorageEnv where
  conn_ok : Bool
  stmt_ok : Nat → Bool

def cache_len_f (env : StorageEnv) (db : DbState) : Nat :=
  if ¬ env.conn_ok then 0
  else if env.stmt_ok 0 then cache_len db else 0

def has_cache_entry_f (env : StorageEnv) (db : DbState) (k : String) : Bool :=
  if ¬ env.conn_ok then false
  else if env.stmt_ok 0 then has_cache_entry db k else false

def has_cache_entry_pfx_f (env : StorageEnv) (db : DbState) (pfx : String) : Bool :=
  if ¬ env.conn_ok then false
  else if env.stmt_ok 0 then has_cache_entry_pfx db pfx else false

def count_chapter_cache_f (env : StorageEnv) (db : DbState) (ck : String) : Nat :=
  if ¬ env.conn_ok then 0
  else if env.stmt_ok 0 then count_chapter_cache db ck else 0

def get_cache_entry_f (env : StorageEnv) (db : DbState) (k : String) (now : Int) :
    Option CacheEntry × DbState :=
  if ¬ env.conn_ok then (none, db)
  else
    let entry := if env.stmt_ok 0
      then (alGet db.ocr_cache k).map (fun r => (⟨r.context, r.data⟩ : CacheEntry))
      else none
    (entry,
      if entry.isSome then
        (if env.stmt_ok 1 then { db with ocr_cache := alUpdate (bumpRow now) db.ocr_cache k }
         else db)
      else db)

def get_chapter_pages_f (env : StorageEnv) (db : DbState) (ck : String) (now : Int) :
    Option Nat × DbState :=
  if ¬ env.conn_ok then (none, db)
  else if env.stmt_ok 0 then get_chapter_pages db ck now else (none, db)

def get_chapter_progress_f (env : StorageEnv) (db : DbState) (ck : String) (now : Int) :
    Option (Nat × Nat) × DbState :=
  if ¬ env.conn_ok then (none, db)
  else if env.stmt_ok 0 then get_chapter_progress db ck now else (none, db)

def insert_cache_entry_f (env : StorageEnv) (db : DbState) (k : String)
    (e : CacheEntry) (now : Int) : DbState :=
  if ¬ env.conn_ok then db
  else if env.stmt_ok 0 then insert_cache_entry db k e now else db

def insert_chapter_cache_f (env : StorageEnv) (db : DbState) (ck k : String)
    (now : Int) : DbState :=
  if ¬ env.conn_ok then db
  else if env.stmt_ok 0 then insert_chapter_cache db ck k now else db

def set_chapter_pages_f (env : StorageEnv) (db : DbState) (ck : String)
    (n : Nat) (now : Int) : DbState :=
  if ¬ env.conn_ok then db
  else if env.stmt_ok 0 then set_chapter_pages db ck n now else db

def set_chapter_progress_f (env : StorageEnv) (db : DbState) (ck : String)
    (n m : Nat) (now : Int) : DbState :=
  if ¬ env.conn_ok then db
  else if env.stmt_ok 0 then set_chapter_progress db ck n m now else db

/-- Model of `clear_cache`: three independent `let _ = conn.execute(DELETE …)`. -/
def clear_cache_f (env : StorageEnv) (db : DbState) : DbState :=
  if ¬ env.conn_ok then db
  else
    ⟨if env.stmt_ok 0 then [] else db.ocr_cache,
      if env.stmt_ok 1 then [] else db.chapter_cache,
      if env.stmt_ok 2 then [] else db.chapter_pages⟩

/-- Model of `export_cache`: statement 0 is the prepare, statement 1 the query; either
failing yields the empty map. -/
def export_cache_f (env : StorageEnv) (db : DbState) : List (String × CacheEntry) :=
  if ¬ env.conn_ok then []
  else if ¬ env.stmt_ok 0 then []
  else if ¬ env.stmt_ok 1 then []
  else export_cache db

/-- The import loop with per-insert statement outcomes (`if let Ok(changes)`:
a failed insert is skipped — neither inserted nor counted). -/
def importCacheGoF (env : StorageEnv) (now : Int) :
    DbState × Nat → Nat → List (String × CacheEntry) → DbState × Nat
  | acc, _, [] => acc
  | acc, i, kv :: rest =>
    if env.stmt_ok i then
      (if (alGet acc.1.ocr_cache kv.1).isSome then importCacheGoF env now acc (i + 1) rest
       else
        importCacheGoF env now
          ({ acc.1 with ocr_cache := acc.1.ocr_cache ++ [(kv.1, freshRow kv.2 now)] },
            acc.2 + 1)
          (i + 1) rest)
    else importCacheGoF env now acc (i + 1) rest

/-- Model of `import_cache`: statement 0 begins the transaction (failure returns 0),
statements `1..` are the inserts, statement `1 + data.length` is the commit —
whose failure is *ignored* (`let _ = tx.commit()`): the changes roll back but
the accumulated count is still returned. -/
def import_cache_f (env : StorageEnv) (db : DbState)
    (data : List (String × CacheEntry)) (now : Int) : DbState × Nat :=
  if ¬ env.conn_ok then (db, 0)
  else if ¬ env.stmt_ok 0 then (db, 0)
  else
    let r := importCacheGoF env now (db, 0) 1 data
    if env.stmt_ok (1 + data.length) then r else (db, r.2)

/-- The member-deletion loop with per-statement outcomes (`unwrap_or(0)`: a
failed `DELETE` removes nothing and counts 0). -/
def deleteMembersGoF (env : StorageEnv) :
    List (String × OcrRow) × Nat → Nat → List String → List (String × OcrRow) × Nat
  | acc, _, [] => acc
  | acc, i, m :: rest =>
    if env.stmt_ok i then
      deleteMembersGoF env
        (acc.1.filter (fun r => ¬ matchesMemberVariant m r.1),
          acc.2 + (acc.1.length - (acc.1.filter (fun r => ¬ matchesMemberVariant m r.1)).length))
        (i + 1) rest
    else deleteMembersGoF env acc (i + 1) rest

/-- Model of `delete_chapter_ocr` with failure points: statement 0 begins the
transaction, statement 1 prepares the member select (when `delete_data`),
statement 2 runs it (failure leaves the member list empty), statements 3 and
4 are the two always-run deletes (`unwrap_or(0)`), statements `5..` the
per-member deletes, and statement `5 + members.length` the commit — begin,
prepare and commit failures return `(0, 0, 0)` with the database unchanged
(rollback). -/
def delete_chapter_ocr_f (env : StorageEnv) (db : DbState) (ck : String)
    (delete_data : Bool) : DbState × (Nat × Nat × Nat) :=
  if ¬ env.conn_ok then (db, (0, 0, 0))
  else if ¬ env.stmt_ok 0 then (db, (0, 0, 0))
  else if delete_data ∧ ¬ env.stmt_ok 1 then (db, (0, 0, 0))
  else
    let members := if delete_data ∧ env.stmt_ok 2 then memberKeys db ck else []
    let ccKept := if env.stmt_ok 3
      then db.chapter_cache.filter (fun r => ¬ r.chapter_key = ck)
      else db.chapter_cache
    let cpKept := if env.stmt_ok 4
      then db.chapter_pages.filter (fun r => ¬ r.1 = ck)
      else db.chapter_pages
    let del := if delete_data then deleteMembersGoF env (db.ocr_cache, 0) 5 members
      else (db.ocr_cache, 0)
    if env.stmt_ok (5 + members.length) then
      (⟨del.1, ccKept, cpKept⟩,
        (db.chapter_cache.length - ccKept.length,
          db.chapter_pages.length - cpKept.length, del.2))
    else (db, (0, 0, 0))

/-- The C9 counterexample import: two fresh entries, with the second insert
statement (index 2) failing. -/
def c9Env : StorageEnv := ⟨true, fun i => ¬ i = 2⟩

/-- C9, counterexample.  With a connection available but the second insert
statement failing, importing two fresh entries returns 1 — the count of
inserts that succeeded — not the 0 the claim requires for "executing a
statement fails"; the first entry really is inserted and committed. -/
theorem c9_counterexample :
    (import_cache_f c9Env ⟨[], [], []⟩
      [("k1", ⟨"c", []⟩), ("k2", ⟨"c", []⟩)] 0).2 = 1 ∧ (1 : Nat) ≠ 0 := by
  constructor
  · rfl
  · decide

/-- C9 (amended): no storage operation ever surfaces an error.  When
acquiring a pooled connection fails, `get` returns `none`, existence checks
`false`, counts `0`, `deleteChapter` `(0, 0, 0)`, export the empty map,
the import `0`, and every write is a no-op, the state unchanged.  Statement
failures likewise stay internal, but degrade per statement rather than
zeroing the whole result: `deleteChapter` returns `(0, 0, 0)` with the state
unchanged when beginning the transaction, preparing the member query, or
committing fails; `import` returns 0 when the transaction cannot start, skips
(neither inserts nor counts) an entry whose insert statement fails, and on a
failed commit leaves the store unchanged while still returning the count it
accumulated. -/
theorem c9_storage_failures_swallowed :
    (∀ (env : StorageEnv) (db : DbState), env.conn_ok = false →
      cache_len_f env db = 0 ∧ export_cache_f env db = [] ∧ clear_cache_f env db = db) ∧
    (∀ (env : StorageEnv) (db : DbState) (k : String), env.conn_ok = false →
      has_cache_entry_f env db k = false ∧ has_cache_entry_pfx_f env db k = false) ∧
    (∀ (env : StorageEnv) (db : DbState) (k : String) (now : Int), env.conn_ok = false →
      get_cache_entry_f env db k now = (none, db)) ∧
    (∀ (env : StorageEnv) (db : DbState) (ck : String) (now : Int), env.conn_ok = false →
      count_chapter_cache_f env db ck = 0 ∧
      get_chapter_pages_f env db ck now = (none, db) ∧
      get_chapter_progress_f env db ck now = (none, db)) ∧
    (∀ (env : StorageEnv) (db : DbState) (k : String) (e : CacheEntry) (now : Int),
      env.conn_ok = false →
      insert_cache_entry_f env db k e now = db ∧
      insert_chapter_cache_f env db k k now = db ∧
      set_chapter_pages_f env db k 0 now = db ∧
      set_chapter_progress_f env db k 0 0 now = db) ∧
    (∀ (env : StorageEnv) (db : DbState) (ck : String) (dd : Bool), env.conn_ok = false →
      delete_chapter_ocr_f env db ck dd = (db, (0, 0, 0))) ∧
    (∀ (env : StorageEnv) (db : DbState) (data : List (String × CacheEntry)) (now : Int),
      env.conn_ok = false → import_cache_f env db data now = (db, 0)) ∧
    (∀ (env : StorageEnv) (db : DbState) (ck : String) (dd : Bool),
      env.stmt_ok 0 = false → delete_chapter_ocr_f env db ck dd = (db, (0, 0, 0))) ∧
    (∀ (env : StorageEnv) (db : DbState) (ck : String),
      env.stmt_ok 1 = false → delete_chapter_ocr_f env db ck true = (db, (0, 0, 0))) ∧
    (∀ (env : StorageEnv) (db : DbState) (data : List (String × CacheEntry)) (now : Int),
      env.stmt_ok 0 = false → import_cache_f env db data now = (db, 0)) ∧
    (∀ (env : StorageEnv) (db : DbState) (data : List (String × CacheEntry)) (now : Int),
      env.stmt_ok (1 + data.length) = false → (import_cache_f env db data now).1 = db) ∧
    (∀ (env : StorageEnv) (db : DbState) (ck : String) (dd : Bool),
      env.stmt_ok (5 + (if dd ∧ env.stmt_ok 2 then memberKeys db ck else []).length) = false →
      delete_chapter_ocr_f env db ck dd = (db, (0, 0, 0))) ∧
    (∀ (env : StorageEnv) (db : DbState) (data : List (String × CacheEntry)) (now : Int),
      env.conn_ok = true → env.stmt_ok 0 = true → env.stmt_ok (1 + data.length) = false →
      import_cache_f env db data now = (db, (importCacheGoF env now (db, 0) 1 data).2)) ∧
    (∀ (env : StorageEnv) (now : Int) (acc : DbState × Nat) (i : Nat)
      (kv : String × CacheEntry) (rest : List (String × CacheEntry)),
      env.stmt_ok i = false →
      importCacheGoF env now acc i (kv :: rest) = importCacheGoF env now acc (i + 1) rest) := by
  refine ⟨?_, ?_, ?_, ?_, ?_, ?_, ?_, ?_, ?_, ?_, ?_, ?_, ?_, ?_⟩
  · intro env db h
    refine ⟨?_, ?_, ?_⟩ <;> simp [cache_len_f, export_cache_f, clear_cache_f, h]
  · intro env db k h
    constructor <;> simp [has_cache_entry_f, has_cache_entry_pfx_f, h]
  · intro env db k now h
    simp [get_cache_entry_f, h]
  · intro env db ck now h
    refine ⟨?_, ?_, ?_⟩ <;>
      simp [count_chapter_cache_f, get_chapter_pages_f, get_chapter_progress_f, h]
  · intro env db k e now h
    refine ⟨?_, ?_, ?_, ?_⟩ <;>
      simp [insert_cache_entry_f, insert_chapter_cache_f, set_chapter_pages_f,
        set_chapter_progress_f, h]
  · intro env db ck dd h
    simp [delete_chapter_ocr_f, h]
  · intro env db data now h
    simp [import_cache_f, h]
  · intro env db ck dd h
    by_cases hc : env.conn_ok
    · simp [delete_chapter_ocr_f, hc, h]
    · simp [delete_chapter_ocr_f, hc]
  · intro env db ck h
    by_cases hc : env.conn_ok
    · by_cases h0 : env.stmt_ok 0
      · simp [delete_chapter_ocr_f, hc, h0, h]
      · simp [delete_chapter_ocr_f, hc, h0]
    · simp [delete_chapter_ocr_f, hc]
  · intro env db data now h
    by_cases hc : env.conn_ok
    · simp [import_cache_f, hc, h]
    · simp [import_cache_f, hc]
  · intro env db data now h
    by_cases hc : env.conn_ok
    · by_cases h0 : env.stmt_ok 0
      · simp [import_cache_f, hc, h0, h]
      · simp [import_cache_f, hc, h0]
    · simp [import_cache_f, hc]
  · intro env db ck dd h
    by_cases hc : env.conn_ok
    · by_cases h0 : env.stmt_ok 0
      · by_cases h1 : dd ∧ ¬ env.stmt_ok 1
        · simp [delete_chapter_ocr_f, hc, h0, h1]
        · simp [delete_chapter_ocr_f, hc, h0, h1, h]
      · simp [delete_chapter_ocr_f, hc, h0]
    · simp [delete_chapter_ocr_f, hc]
  · intro env db data now hc h0 h
    simp [import_cache_f, hc, h0, h]
  · intro env now acc i kv rest h
    simp [importCacheGoF, h]

end Manatan